import Mathlib

/-!
Shallow embedding of the transport layer of py-xiaozhi
(`src/protocols/protocol.py`, `src/protocols/mqtt_protocol.py`,
`src/protocols/websocket_protocol.py`).

Bytes and hex strings are modelled as `List Nat` (a byte is a value `< 256`,
a hex digit a value `< 16`).  Machine integers are `Nat` with explicit
masking / `% 2 ^ 32` where the code masks.  Fallible library calls
(`bytes.fromhex`, cipher construction) return `Option`.  The AES block
cipher itself lives in the external `cryptography` package, not in this
repository; CTR mode uses it only as a keystream generator, so it is passed
in as an arbitrary keyed block function `blockE : List Nat → Nat → Nat`
(key bytes → 128-bit counter block value → 128-bit keystream block value).
-/

/-- Big-endian hex digit values of `n`, as produced by Python `'%x' % n`:
at least one digit, no leading zeros for `n ≠ 0`. -/
def hexString (n : Nat) : List Nat :=
  if n = 0 then [0] else (Nat.digits 16 n).reverse

/-- Python `format(n, '0wx')`: left-pad the hex representation of `n` with
zeros to a minimum (not fixed) width `w`; wider values are not truncated. -/
def formatHex (w n : Nat) : List Nat :=
  List.replicate (w - (hexString n).length) 0 ++ hexString n

/-- Pair consecutive hex digits into byte values (the core of Python
`bytes.fromhex`); a dangling odd digit is ignored here, the caller
`fromhex` rejects odd lengths. -/
def hexPairs : List Nat → List Nat
  | a :: b :: rest => (a * 16 + b) :: hexPairs rest
  | _ => []

/-- Python `bytes.fromhex`: raises `ValueError` (here: `none`) on an
odd-length string or a non-hex digit. -/
def fromhex (s : List Nat) : Option (List Nat) :=
  if s.length % 2 = 0 ∧ ∀ d ∈ s, d < 16 then some (hexPairs s) else none

/-- Python `bytes.hex()`: two hex digits per byte, big-endian within the byte. -/
def bytesToHex : List Nat → List Nat
  | [] => []
  | b :: r => b / 16 % 16 :: b % 16 :: bytesToHex r

/-- Big-endian encoding of `n` in exactly `k` bytes (the value of a
`k`-byte fixed-width field). -/
def beBytes : Nat → Nat → List Nat
  | 0, _ => []
  | k + 1, n => beBytes k (n / 256) ++ [n % 256]

/-- Value of a big-endian byte string as a natural number. -/
def beVal (bs : List Nat) : Nat :=
  bs.foldl (fun a b => a * 256 + b) 0

/-- CTR-mode keystream: byte `j` is byte `j % 16` (big-endian) of the block
cipher applied to the initial counter block incremented `j / 16` times
(mod `2 ^ 128`).  `blockE` is the AES block encryption under the session
key, supplied by the external `cryptography` package. -/
def ctrKeystream (blockE : Nat → Nat) (counter0 len : Nat) : List Nat :=
  (List.range len).map
    (fun j => blockE ((counter0 + j / 16) % 2 ^ 128) / 256 ^ (15 - j % 16) % 256)

/-- `MqttProtocol.aes_ctr_encrypt`: `Cipher(algorithms.AES(key), modes.CTR(nonce))`
then `encryptor.update(data) + finalize()`.  `algorithms.AES` rejects keys not
of 128/192/256 bits and `modes.CTR` rejects a counter block that is not one
cipher block (16 bytes) long; both rejections surface as `none`.  In CTR mode
encryption XORs the data with the keystream. -/
def aes_ctr_encrypt (blockE : List Nat → Nat → Nat) (key nonce data : List Nat) :
    Option (List Nat) :=
  if (key.length = 16 ∨ key.length = 24 ∨ key.length = 32) ∧ nonce.length = 16 then
    some (List.zipWith Nat.xor data (ctrKeystream (blockE key) (beVal nonce) data.length))
  else none

/-- `MqttProtocol.aes_ctr_decrypt`: identical cipher construction with
`decryptor.update(data) + finalize()`; in CTR mode decryption is the same
keystream XOR as encryption. -/
def aes_ctr_decrypt (blockE : List Nat → Nat → Nat) (key nonce data : List Nat) :
    Option (List Nat) :=
  if (key.length = 16 ∨ key.length = 24 ∨ key.length = 32) ∧ nonce.length = 16 then
    some (List.zipWith Nat.xor data (ctrKeystream (blockE key) (beVal nonce) data.length))
  else none

/-! State of `MqttProtocol` (the hybrid control-plus-datagram transport).
Handles to external objects (`mqtt_client`, `udp_socket`, the receive
thread) are modelled by their presence. -/

structure MqttState where
  mqtt_client : Bool
  udp_socket : Bool
  udp_running : Bool
  udp_server : String
  udp_port : Nat
  aes_key : List Nat
  aes_nonce : List Nat
  local_sequence : Nat
  session_id : String
  server_hello_set : Bool
deriving Repr, DecidableEq

/-- `MqttProtocol.__init__`: no client, no socket, no thread, empty UDP
configuration, both sequence counters zero, hello event unset. -/
def mqttInitialState : MqttState :=
  ⟨false, false, false, "", 0, [], [], 0, "", false⟩

/-- `MqttProtocol.is_audio_channel_opened`. -/
def mqttIsAudioChannelOpened (st : MqttState) : Bool :=
  st.udp_socket && st.udp_running

/-- The hex string `new_nonce` built by `MqttProtocol.send_audio`:
`aes_nonce[:4] + format(len(data), '04x') + aes_nonce[8:24] + format(seq, '08x')`. -/
def newNonceHex (aes_nonce : List Nat) (dataLen seq : Nat) : List Nat :=
  aes_nonce.take 4 ++ formatHex 4 dataLen ++
    (aes_nonce.drop 8).take 16 ++ formatHex 8 seq

/-- Observable outcome of one `send_audio` call.  `sent` is the datagram
handed to `sendto` (`none` if an exception pre-empted or aborted the send),
`retval` the boolean the call returns, `raisedMessageErr` whether a
`MessageError` escaped to the caller, `errorListener` whether
`_handle_error` ran (invoking the network-error listener). -/
structure SendAudioResult where
  sent : Option (List Nat)
  retval : Bool
  raisedMessageErr : Bool
  errorListener : Bool
deriving Repr, DecidableEq

/-- `MqttProtocol.send_audio`.  Guard: `not udp_socket or not udp_server or
not udp_port` returns `False`.  Then the sequence counter is incremented and
masked, the nonce hex string is built, key and nonce pass through
`bytes.fromhex`, the payload is AES-CTR encrypted, and
`nonce ‖ ciphertext` is sent as one datagram.  Every exception inside the
`try` block (hex decoding, cipher construction, `sendto` — the latter
modelled by `sendtoFails`) is caught: the error listener runs and the call
returns `False`; `send_audio` never raises. -/
def mqttSendAudio (blockE : List Nat → Nat → Nat) (sendtoFails : Bool)
    (st : MqttState) (data : List Nat) : SendAudioResult × MqttState :=
  if st.udp_socket = false ∨ st.udp_server = "" ∨ st.udp_port = 0 then
    (⟨none, false, false, false⟩, st)
  else
    match fromhex st.aes_key,
        fromhex (newNonceHex st.aes_nonce data.length
          ((st.local_sequence + 1) &&& 0xFFFFFFFF)) with
    | some keyB, some nonceB =>
      match aes_ctr_encrypt blockE keyB nonceB data with
      | some c =>
        if sendtoFails then
          (⟨none, false, false, true⟩,
            { st with local_sequence := (st.local_sequence + 1) &&& 0xFFFFFFFF })
        else
          (⟨some (nonceB ++ c), true, false, false⟩,
            { st with local_sequence := (st.local_sequence + 1) &&& 0xFFFFFFFF })
      | none =>
        (⟨none, false, false, true⟩,
          { st with local_sequence := (st.local_sequence + 1) &&& 0xFFFFFFFF })
    | _, _ =>
      (⟨none, false, false, true⟩,
        { st with local_sequence := (st.local_sequence + 1) &&& 0xFFFFFFFF })

/-- Fields of a parsed server hello message relevant to both handlers.
`data.get("transport")` is `none` when the key is absent; the remaining
fields carry the `.get` defaults (`""`, `0`) when absent, which is exactly
how the code sees a missing `udp_audio` object. -/
structure HelloData where
  transport : Option String
  session_id : String
  udp_host : String
  udp_port : Nat
  aes_key : List Nat
  aes_nonce : List Nat
deriving Repr, DecidableEq

/-- `MqttProtocol._handle_server_hello`.  Returns the new state and whether
the audio-channel-opened notification fires (the listener is invoked when
registered).  A transport tag that is missing or differs from `"mqtt"` is
logged and dropped with no state change.  On the hybrid tag the session id
and the four UDP fields are recorded; if any of the four is falsy the
message is dropped before the socket, thread, or hello event are touched.
Otherwise `_init_udp_socket` opens the socket and starts the receive
thread, the hello event is set, and the notification fires. -/
def mqttHandleServerHello (st : MqttState) (d : HelloData) : MqttState × Bool :=
  match d.transport with
  | none => (st, false)
  | some t =>
    if t = "mqtt" then
      let st1 := { st with session_id := d.session_id, udp_server := d.udp_host,
                           udp_port := d.udp_port, aes_key := d.aes_key,
                           aes_nonce := d.aes_nonce }
      if d.udp_host = "" ∨ d.udp_port = 0 ∨ d.aes_key = [] ∨ d.aes_nonce = [] then
        (st1, false)
      else
        ({ st1 with udp_socket := true, udp_running := true, server_hello_set := true },
         true)
    else (st, false)

/-- Observable outcome of one iteration of the UDP receive loop on a
received datagram: `delivered` is the plaintext handed to the
incoming-audio listener, `decryptAttempted` whether `aes_ctr_decrypt` was
reached, `errorLogged` whether the per-iteration `except` clause caught an
exception (logged; the loop continues, nothing propagates). -/
structure RecvResult where
  delivered : Option (List Nat)
  decryptAttempted : Bool
  errorLogged : Bool
deriving Repr, DecidableEq

/-- One iteration of `MqttProtocol._udp_receive_thread` on datagram `data`:
datagrams failing `data and len(data) > 32` are dropped; otherwise
`nonce = data[:32].hex()` and the remaining bytes are decrypted with
`bytes.fromhex(aes_key)` and `bytes.fromhex(nonce)`; the plaintext goes to
the incoming-audio listener when one is registered.  All exceptions are
caught and logged inside the loop. -/
def udpReceiveStep (blockE : List Nat → Nat → Nat) (hasListener : Bool)
    (st : MqttState) (data : List Nat) : RecvResult :=
  if data ≠ [] ∧ 32 < data.length then
    match fromhex st.aes_key with
    | none => ⟨none, true, true⟩
    | some keyB =>
      match fromhex (bytesToHex (data.take 32)) with
      | none => ⟨none, true, true⟩
      | some nonceB =>
        match aes_ctr_decrypt blockE keyB nonceB (data.drop 32) with
        | none => ⟨none, true, true⟩
        | some pt => if hasListener then ⟨some pt, true, false⟩ else ⟨none, true, false⟩
  else ⟨none, false, false⟩

/-- `MqttProtocol.disconnect`.  The receive thread is flagged down and
joined (bounded 2 s), the UDP socket closed (a close failure is caught and
only logged) and cleared, then the MQTT client is stopped and disconnected
— only a failure of that control-connection teardown (`clientTeardownFails`)
makes the call return `False`, and the `finally` clears the client handle
either way. -/
def mqttDisconnect (clientTeardownFails : Bool) (st : MqttState) : Bool × MqttState :=
  let st1 := { st with udp_running := false, udp_socket := false }
  if st.mqtt_client then
    (!clientTeardownFails, { st1 with mqtt_client := false })
  else
    (true, st1)

/-- Observable outcome of a text/audio send on either transport.
`retval = some b` means the call returned `b`; `retval = none` means it
raised.  `closedAudioChannel` records the WebSocket `send_text` best-effort
teardown before surfacing the error. -/
structure SendOutcome where
  raisedMessageErr : Bool
  retval : Option Bool
  errorListener : Bool
  closedAudioChannel : Bool
deriving Repr, DecidableEq

/-- `MqttProtocol.send_text`: `False` without a client; on a publish
exception (`publishThrows`) `_handle_error` runs and `MessageError` is
raised; otherwise the call returns `result.is_published()` (`published`). -/
def mqttSendText (publishThrows published : Bool) (st : MqttState) : SendOutcome :=
  if st.mqtt_client = false then ⟨false, some false, false, false⟩
  else if publishThrows then ⟨true, none, true, false⟩
  else ⟨false, some published, false, false⟩

/-! State of `WebSocketProtocol` (the single-channel transport). -/

structure WsState where
  websocket : Bool
  connected : Bool
  hello_received : Bool
  session_id : String
deriving Repr, DecidableEq

/-- `WebSocketProtocol.__init__`: no connection, not connected, hello event
not created/unset, empty session. -/
def wsInitialState : WsState :=
  ⟨false, false, false, ""⟩

/-- `WebSocketProtocol.is_audio_channel_opened`. -/
def wsIsAudioChannelOpened (st : WsState) : Bool :=
  st.websocket && st.connected

/-- `WebSocketProtocol._handle_server_hello`: a transport tag that is
missing or differs from `"websocket"` is logged and dropped with no state
change; otherwise the session id is recorded, the hello event set and the
audio-channel-opened notification fires. -/
def wsHandleServerHello (st : WsState) (d : HelloData) : WsState × Bool :=
  match d.transport with
  | none => (st, false)
  | some t =>
    if t = "websocket" then
      ({ st with session_id := d.session_id, hello_received := true }, true)
    else (st, false)

/-- `WebSocketProtocol.disconnect`: with a connection present, `close()` is
awaited — a close failure (`closeFails`) makes the call return `False` —
and the `finally` clears the handle and the connected flag either way;
without a connection the call returns `True` untouched. -/
def wsDisconnect (closeFails : Bool) (st : WsState) : Bool × WsState :=
  if st.websocket then
    (!closeFails, { st with websocket := false, connected := false })
  else
    (true, st)

/-- `WebSocketProtocol.send_audio`: `False` unless connected; on a send
exception `_handle_error` runs and `MessageError` is raised. -/
def wsSendAudio (sendThrows : Bool) (st : WsState) : SendOutcome :=
  if st.websocket = false ∨ st.connected = false then ⟨false, some false, false, false⟩
  else if sendThrows then ⟨true, none, true, false⟩
  else ⟨false, some true, false, false⟩

/-- `WebSocketProtocol.send_text`: `False` without a connection; on a send
exception the audio channel is best-effort closed, `_handle_error` runs and
`MessageError` is raised. -/
def wsSendText (sendThrows : Bool) (st : WsState) : SendOutcome :=
  if st.websocket = false then ⟨false, some false, false, false⟩
  else if sendThrows then ⟨true, none, true, true⟩
  else ⟨false, some true, false, false⟩

/-! Helper lemmas about the hex machinery. -/

lemma hexString_length_pos (n : Nat) : 1 ≤ (hexString n).length := by
  unfold hexString
  split
  · simp
  · rename_i hn
    rw [List.length_reverse]
    have hne : Nat.digits 16 n ≠ [] := Nat.digits_ne_nil_iff_ne_zero.mpr hn
    exact List.length_pos.mpr hne

lemma hexString_length_le {k n : Nat} (hk : 1 ≤ k) (h : n < 16 ^ k) :
    (hexString n).length ≤ k := by
  unfold hexString
  split
  · simpa using hk
  · rename_i hn
    rw [List.length_reverse, Nat.digits_len 16 n (by norm_num) hn]
    have hlog := (Nat.lt_pow_iff_log_lt (by norm_num : (1:Nat) < 16) hn).mp h
    omega

lemma hexString_lt {n d : Nat} (h : d ∈ hexString n) : d < 16 := by
  unfold hexString at h
  split at h
  · simp at h
    omega
  · rw [List.mem_reverse] at h
    exact Nat.digits_lt_base (by norm_num) h

lemma formatHex_length (w n : Nat) : (formatHex w n).length = max w (hexString n).length := by
  unfold formatHex
  rw [List.length_append, List.length_replicate]
  omega

lemma formatHex_length_eq {w n : Nat} (h : (hexString n).length ≤ w) :
    (formatHex w n).length = w := by
  rw [formatHex_length]
  omega

lemma formatHex_lt {w n d : Nat} (h : d ∈ formatHex w n) : d < 16 := by
  unfold formatHex at h
  rcases List.mem_append.mp h with h | h
  · have := List.eq_of_mem_replicate h
    omega
  · exact hexString_lt h

lemma formatHex_two {n : Nat} (h : n < 256) : formatHex 2 n = [n / 16, n % 16] := by
  rcases Nat.eq_zero_or_pos n with h0 | h0
  · subst h0
    rfl
  by_cases h16 : n < 16
  · have hne : n ≠ 0 := Nat.pos_iff_ne_zero.mp h0
    have hd : Nat.digits 16 n = [n] := by
      rw [Nat.digits_def' (by norm_num : (1:Nat) < 16) h0, Nat.div_eq_of_lt h16,
          Nat.digits_zero, Nat.mod_eq_of_lt h16]
    have hdiv : n / 16 = 0 := Nat.div_eq_of_lt h16
    have hm : n % 16 = n := Nat.mod_eq_of_lt h16
    simp [formatHex, hexString, hne, hd, hdiv, hm]
  · push_neg at h16
    have hne : n ≠ 0 := by omega
    have h1 : Nat.digits 16 n = n % 16 :: Nat.digits 16 (n / 16) :=
      Nat.digits_def' (by norm_num) h0
    have h2 : Nat.digits 16 (n / 16) = [n / 16] := by
      rw [Nat.digits_def' (by norm_num : (1:Nat) < 16) (by omega : 0 < n / 16)]
      have hz : n / 16 / 16 = 0 := by omega
      rw [hz, Nat.digits_zero, Nat.mod_eq_of_lt (by omega : n / 16 < 16)]
    simp [formatHex, hexString, hne, h1, h2]

lemma hexString_decomp {n : Nat} (h : 256 ≤ n) :
    hexString n = hexString (n / 256) ++ [n / 16 % 16, n % 16] := by
  have h1 : Nat.digits 16 n = n % 16 :: Nat.digits 16 (n / 16) :=
    Nat.digits_def' (by norm_num) (by omega)
  have h2 : Nat.digits 16 (n / 16) = n / 16 % 16 :: Nat.digits 16 (n / 16 / 16) :=
    Nat.digits_def' (by norm_num) (by omega : 0 < n / 16)
  have h3 : n / 16 / 16 = n / 256 := by
    rw [Nat.div_div_eq_div_mul]
  have hne : n ≠ 0 := by omega
  have hne' : n / 256 ≠ 0 := by omega
  simp [hexString, hne, hne', h1, h2, h3, List.append_assoc]

lemma formatHex_pad {w m n : Nat} (h : (hexString n).length ≤ w) :
    formatHex (m + w) n = List.replicate m 0 ++ formatHex w n := by
  unfold formatHex
  rw [← List.append_assoc, ← List.replicate_add]
  congr 2
  omega

lemma formatHex_step {k n : Nat} (hk : 1 ≤ k) :
    formatHex (2 * k + 2) n = formatHex (2 * k) (n / 256) ++ [n / 16 % 16, n % 16] := by
  by_cases h : 256 ≤ n
  · have hd := hexString_decomp h
    have hL : (hexString n).length = (hexString (n / 256)).length + 2 := by
      rw [hd]
      simp
    unfold formatHex
    rw [hd]
    have hlen2 : (hexString (n / 256) ++ [n / 16 % 16, n % 16]).length
        = (hexString (n / 256)).length + 2 := by simp
    rw [hlen2,
        show 2 * k + 2 - ((hexString (n / 256)).length + 2)
          = 2 * k - (hexString (n / 256)).length by omega]
    simp [List.append_assoc]
  · push_neg at h
    have hL2 : (hexString n).length ≤ 2 :=
      hexString_length_le (by norm_num) (show n < 16 ^ 2 by norm_num; omega)
    have hz : n / 256 = 0 := by omega
    have hmod : n / 16 % 16 = n / 16 := Nat.mod_eq_of_lt (by omega)
    rw [formatHex_pad (m := 2 * k) (w := 2) hL2, formatHex_two h, hz, hmod]
    unfold formatHex hexString
    simp only [if_pos rfl, List.length_singleton]
    rw [show (2:Nat) * k = (2 * k - 1) + 1 by omega, List.replicate_succ']
    simp [List.append_assoc]

lemma hexPairs_length : ∀ s : List Nat, (hexPairs s).length = s.length / 2
  | [] => rfl
  | [_] => by simp [hexPairs]
  | a :: b :: r => by
    simp only [hexPairs, List.length_cons, hexPairs_length r]
    omega

lemma hexPairs_append : ∀ (a b : List Nat), a.length % 2 = 0 →
    hexPairs (a ++ b) = hexPairs a ++ hexPairs b
  | [], _, _ => rfl
  | [_], _, h => by simp at h
  | x :: y :: r, b, h => by
    have hr : r.length % 2 = 0 := by
      simp only [List.length_cons] at h
      omega
    simp only [List.cons_append, hexPairs]
    congr 1
    exact hexPairs_append r b hr

lemma beBytes_length : ∀ k n : Nat, (beBytes k n).length = k
  | 0, _ => rfl
  | k + 1, n => by simp [beBytes, beBytes_length k]

lemma hexPairs_formatHex : ∀ (k n : Nat), 1 ≤ k → n < 16 ^ (2 * k) →
    hexPairs (formatHex (2 * k) n) = beBytes k n
  | 0, _, hk, _ => by omega
  | 1, n, _, hn => by
    have hn' : n < 256 := by
      have : (16:Nat) ^ (2 * 1) = 256 := by norm_num
      omega
    rw [show 2 * 1 = 2 by rfl, formatHex_two hn']
    simp only [hexPairs, beBytes]
    have : n % 256 = n := Nat.mod_eq_of_lt hn'
    simp only [this]
    congr 1
    omega
  | k + 2, n, _, hn => by
    have hk1 : 1 ≤ k + 1 := by omega
    have hdiv : n / 256 < 16 ^ (2 * (k + 1)) := by
      have h1 : (16:Nat) ^ (2 * (k + 2)) = 16 ^ (2 * (k + 1)) * 256 := by ring
      rw [h1] at hn
      exact Nat.div_lt_of_lt_mul (by omega)
    have hL : (hexString (n / 256)).length ≤ 2 * (k + 1) :=
      hexString_length_le (by omega) hdiv
    rw [show 2 * (k + 2) = 2 * (k + 1) + 2 by ring, formatHex_step hk1,
        hexPairs_append _ _ (by rw [formatHex_length_eq hL]; omega),
        hexPairs_formatHex (k + 1) (n / 256) hk1 hdiv]
    show beBytes (k + 1) (n / 256) ++ [n / 16 % 16 * 16 + n % 16] = beBytes (k + 2) n
    have hb : n / 16 % 16 * 16 + n % 16 = n % 256 := by omega
    rw [hb]
    rfl

lemma fromhex_eq_some {s : List Nat} (h1 : s.length % 2 = 0) (h2 : ∀ d ∈ s, d < 16) :
    fromhex s = some (hexPairs s) := by
  unfold fromhex
  rw [if_pos ⟨h1, h2⟩]

lemma fromhex_some_inv {s nb : List Nat} (h : fromhex s = some nb) :
    s.length % 2 = 0 ∧ nb = hexPairs s := by
  unfold fromhex at h
  split at h
  · rename_i hc
    cases h
    exact ⟨hc.1, rfl⟩
  · cases h

lemma bytesToHex_length : ∀ bs : List Nat, (bytesToHex bs).length = 2 * bs.length
  | [] => rfl
  | b :: r => by
    simp only [bytesToHex, List.length_cons, bytesToHex_length r]
    omega

lemma bytesToHex_lt : ∀ (bs : List Nat), ∀ d ∈ bytesToHex bs, d < 16
  | [], _, h => by simp [bytesToHex] at h
  | b :: r, d, h => by
    simp only [bytesToHex, List.mem_cons] at h
    rcases h with h | h | h
    · omega
    · omega
    · exact bytesToHex_lt r d h

lemma ctrKeystream_length (blockE : Nat → Nat) (c len : Nat) :
    (ctrKeystream blockE c len).length = len := by
  simp [ctrKeystream]

lemma zipWith_xor_cancel : ∀ (l ks : List Nat), l.length ≤ ks.length →
    List.zipWith Nat.xor (List.zipWith Nat.xor l ks) ks = l
  | [], _, _ => by simp
  | _ :: _, [], h => by simp at h
  | a :: l, b :: ks, h => by
    have hx : ∀ m n : Nat, Nat.xor (Nat.xor m n) n = m := fun m n => Nat.xor_cancel_right n m
    simp only [List.zipWith_cons_cons, hx]
    rw [zipWith_xor_cancel l ks (by simpa using h)]

lemma mask32_eq_mod (n : Nat) : n &&& 0xFFFFFFFF = n % 2 ^ 32 := by
  have h := Nat.and_pow_two_sub_one_eq_mod n 32
  norm_num at h ⊢
  exact h

lemma newNonceHex_valid {base : List Nat} (hd : ∀ d ∈ base, d < 16) (len seq : Nat) :
    ∀ d ∈ newNonceHex base len seq, d < 16 := by
  intro d hmem
  unfold newNonceHex at hmem
  rcases List.mem_append.mp hmem with hmem | h4
  · rcases List.mem_append.mp hmem with hmem | h3
    · rcases List.mem_append.mp hmem with h1 | h2
      · exact hd d (List.take_subset _ _ h1)
      · exact formatHex_lt h2
    · exact hd d (List.drop_subset _ _ (List.take_subset _ _ h3))
  · exact formatHex_lt h4

/-- Under the documented preconditions (32-hex-digit base nonce, payload at
most 65535 bytes, sequence value below `2 ^ 32`), the nonce hex string built
by `send_audio` decodes to the 16 bytes
`prefix(2) ‖ big-endian length(2) ‖ middle(8) ‖ big-endian sequence(4)`. -/
lemma newNonceHex_parts {base : List Nat} (hb : base.length = 32)
    (hd : ∀ d ∈ base, d < 16) {len seq : Nat} (hlen : len ≤ 65535)
    (hseq : seq < 2 ^ 32) :
    fromhex (newNonceHex base len seq) =
      some (hexPairs (base.take 4) ++ beBytes 2 len ++
            hexPairs ((base.drop 8).take 16) ++ beBytes 4 seq) ∧
    (hexPairs (base.take 4) ++ beBytes 2 len ++
            hexPairs ((base.drop 8).take 16) ++ beBytes 4 seq).length = 16 := by
  have hlen16 : len < 16 ^ (2 * 2) := by norm_num; omega
  have hseq16 : seq < 16 ^ (2 * 4) := by norm_num; omega
  have hL4 : (hexString len).length ≤ 4 := hexString_length_le (by norm_num) hlen16
  have hL8 : (hexString seq).length ≤ 8 := hexString_length_le (by norm_num) hseq16
  have ht4 : (base.take 4).length = 4 := by
    rw [List.length_take, hb]
    rfl
  have hm16 : ((base.drop 8).take 16).length = 16 := by
    rw [List.length_take, List.length_drop, hb]
    rfl
  have hf4 : (formatHex 4 len).length = 4 := formatHex_length_eq hL4
  have hf8 : (formatHex 8 seq).length = 8 := formatHex_length_eq hL8
  have hp4 : hexPairs (formatHex 4 len) = beBytes 2 len := by
    have := hexPairs_formatHex 2 len (by norm_num) hlen16
    simpa using this
  have hp8 : hexPairs (formatHex 8 seq) = beBytes 4 seq := by
    have := hexPairs_formatHex 4 seq (by norm_num) hseq16
    simpa using this
  have htotal : (newNonceHex base len seq).length = 32 := by
    unfold newNonceHex
    simp only [List.length_append]
    omega
  have hsplit : hexPairs (newNonceHex base len seq) =
      hexPairs (base.take 4) ++ beBytes 2 len ++
        hexPairs ((base.drop 8).take 16) ++ beBytes 4 seq := by
    unfold newNonceHex
    rw [hexPairs_append (base.take 4 ++ formatHex 4 len ++ (base.drop 8).take 16)
          (formatHex 8 seq) (by simp only [List.length_append]; omega),
        hexPairs_append (base.take 4 ++ formatHex 4 len) ((base.drop 8).take 16)
          (by simp only [List.length_append]; omega),
        hexPairs_append (base.take 4) (formatHex 4 len) (by omega),
        hp4, hp8]
  constructor
  · rw [fromhex_eq_some (by omega) (newNonceHex_valid hd len seq), hsplit]
  · rw [← hsplit, hexPairs_length, htotal]

lemma aes_ctr_roundtrip_aux (blockE : List Nat → Nat → Nat) {key nonce : List Nat}
    (hkey : key.length = 16 ∨ key.length = 24 ∨ key.length = 32)
    (hnonce : nonce.length = 16) (data : List Nat) :
    ∃ c, aes_ctr_encrypt blockE key nonce data = some c ∧
      aes_ctr_decrypt blockE key nonce c = some data := by
  refine ⟨List.zipWith Nat.xor data
      (ctrKeystream (blockE key) (beVal nonce) data.length), ?_, ?_⟩
  · rw [aes_ctr_encrypt, if_pos ⟨hkey, hnonce⟩]
  · rw [aes_ctr_decrypt, if_pos ⟨hkey, hnonce⟩]
    have hlen : (List.zipWith Nat.xor data
        (ctrKeystream (blockE key) (beVal nonce) data.length)).length = data.length := by
      simp [List.length_zipWith, ctrKeystream_length]
    rw [hlen]
    congr 1
    exact zipWith_xor_cancel data _ (le_of_eq (ctrKeystream_length _ _ _).symm)

/-- C1: AES-CTR decryption inverts AES-CTR encryption.  For every keyed
block function (the AES block primitive is supplied by the external
`cryptography` package; CTR mode does not depend on its internals), every
key the cipher accepts, every 16-byte counter block and every payload,
`aes_ctr_decrypt` applied to the output of `aes_ctr_encrypt` returns the
payload; in particular, for every sequence value `s < 2 ^ 32`, the nonce
derived for `s` by the `send_audio` construction (from any well-formed base
nonce, for any payload of the documented length range) is 16 bytes long and
the payload round-trips through encrypt/decrypt under that nonce. -/
theorem aes_ctr_encrypt_decrypt_roundtrip (blockE : List Nat → Nat → Nat)
    (key nonce data c : List Nat)
    (henc : aes_ctr_encrypt blockE key nonce data = some c) :
    aes_ctr_decrypt blockE key nonce c = some data ∧
    ∀ s, s < 2 ^ 32 → ∀ base p : List Nat, base.length = 32 →
      (∀ d ∈ base, d < 16) → p.length ≤ 65535 →
      ∃ nb c2, fromhex (newNonceHex base p.length s) = some nb ∧ nb.length = 16 ∧
        aes_ctr_encrypt blockE key nb p = some c2 ∧
        aes_ctr_decrypt blockE key nb c2 = some p := by
  have hcond : (key.length = 16 ∨ key.length = 24 ∨ key.length = 32) ∧
      nonce.length = 16 := by
    by_contra hc
    rw [aes_ctr_encrypt, if_neg hc] at henc
    cases henc
  constructor
  · obtain ⟨c', he', hd'⟩ := aes_ctr_roundtrip_aux blockE hcond.1 hcond.2 data
    rw [henc] at he'
    cases he'
    exact hd'
  · intro s hs base p hb hd hp
    obtain ⟨hfh, hlen16⟩ := newNonceHex_parts hb hd hp hs
    obtain ⟨c2, he2, hd2⟩ := aes_ctr_roundtrip_aux blockE hcond.1 hlen16 p
    exact ⟨_, c2, hfh, hlen16, he2, hd2⟩

/-- Witness for C1 at a concrete key, counter block and payload. -/
theorem aes_ctr_encrypt_decrypt_roundtrip_witness :
    aes_ctr_encrypt (fun _ _ => 0) (List.replicate 16 0) (List.replicate 16 0) [1, 2, 3]
      = some [1, 2, 3] ∧
    aes_ctr_decrypt (fun _ _ => 0) (List.replicate 16 0) (List.replicate 16 0) [1, 2, 3]
      = some [1, 2, 3] := by
  have henc : aes_ctr_encrypt (fun _ _ => 0) (List.replicate 16 0)
      (List.replicate 16 0) [1, 2, 3] = some [1, 2, 3] := by decide
  exact ⟨henc,
    (aes_ctr_encrypt_decrypt_roundtrip (fun _ _ => 0) (List.replicate 16 0)
      (List.replicate 16 0) [1, 2, 3] [1, 2, 3] henc).1⟩

/-- A ready hybrid state used by concrete witnesses: connected control
channel, initialized datagram channel, 16-byte key and base nonce delivered
as 32 hex digits each. -/
def testMqttReady : MqttState :=
  ⟨true, true, true, "h", 1, List.replicate 32 1, List.replicate 32 2, 0, "s", true⟩

/-- On an initialized datagram channel every `send_audio` call leaves the
state unchanged except for the masked post-increment sequence counter,
whatever the outcome of encryption and of the datagram send. -/
lemma mqttSendAudio_state (blockE : List Nat → Nat → Nat) (sendtoFails : Bool)
    (st : MqttState) (data : List Nat)
    (hsock : st.udp_socket = true) (hsrv : st.udp_server ≠ "") (hport : st.udp_port ≠ 0) :
    (mqttSendAudio blockE sendtoFails st data).2
      = { st with local_sequence := (st.local_sequence + 1) % 2 ^ 32 } := by
  have hguard : ¬(st.udp_socket = false ∨ st.udp_server = "" ∨ st.udp_port = 0) := by
    simp [hsock, hsrv, hport]
  unfold mqttSendAudio
  rw [if_neg hguard]
  simp only [mask32_eq_mod]
  rcases fromhex st.aes_key with _ | keyB <;>
    rcases fromhex (newNonceHex st.aes_nonce data.length ((st.local_sequence + 1) % 2 ^ 32))
      with _ | nonceB <;>
    simp only []
  rcases aes_ctr_encrypt blockE keyB nonceB data with _ | c <;> simp only []
  cases sendtoFails <;> simp

/-- C2: on an initialized hybrid datagram channel (well-formed server-provided
key and 32-hex-digit base nonce, payload within the 2-byte length range),
`send_audio` prepends to the outbound packet exactly the 16-byte nonce
`prefix ‖ length ‖ middle ‖ sequence` — the 2 bytes decoded from the first
four hex digits of the base nonce, the 2-byte big-endian payload length,
the 8 bytes decoded from hex digits 8..23 of the base nonce, and the 4-byte
big-endian post-increment masked sequence counter — followed by the
ciphertext, whose length equals the payload length. -/
theorem send_audio_nonce_and_packet_format (blockE : List Nat → Nat → Nat)
    (st : MqttState) (data : List Nat)
    (hsock : st.udp_socket = true) (hsrv : st.udp_server ≠ "") (hport : st.udp_port ≠ 0)
    (hblen : st.aes_nonce.length = 32) (hbd : ∀ d ∈ st.aes_nonce, d < 16)
    (hklen : st.aes_key.length = 32 ∨ st.aes_key.length = 48 ∨ st.aes_key.length = 64)
    (hkd : ∀ d ∈ st.aes_key, d < 16)
    (hdlen : data.length ≤ 65535) :
    ∃ c, (mqttSendAudio blockE false st data).1.sent =
        some ((hexPairs (st.aes_nonce.take 4) ++ beBytes 2 data.length ++
               hexPairs ((st.aes_nonce.drop 8).take 16) ++
               beBytes 4 ((st.local_sequence + 1) % 2 ^ 32)) ++ c) ∧
      c.length = data.length ∧
      (hexPairs (st.aes_nonce.take 4)).length = 2 ∧
      (beBytes 2 data.length).length = 2 ∧
      (hexPairs ((st.aes_nonce.drop 8).take 16)).length = 8 ∧
      (beBytes 4 ((st.local_sequence + 1) % 2 ^ 32)).length = 4 ∧
      beBytes 2 data.length = [data.length / 256, data.length % 256] ∧
      (mqttSendAudio blockE false st data).2.local_sequence
        = (st.local_sequence + 1) % 2 ^ 32 := by
  have hguard : ¬(st.udp_socket = false ∨ st.udp_server = "" ∨ st.udp_port = 0) := by
    simp [hsock, hsrv, hport]
  have hseqlt : (st.local_sequence + 1) % 2 ^ 32 < 2 ^ 32 := Nat.mod_lt _ (by norm_num)
  have hkeven : st.aes_key.length % 2 = 0 := by omega
  have hkey := fromhex_eq_some hkeven hkd
  obtain ⟨hfh, hnb16⟩ := newNonceHex_parts hblen hbd hdlen hseqlt
  have hkeylen : (hexPairs st.aes_key).length = 16 ∨ (hexPairs st.aes_key).length = 24 ∨
      (hexPairs st.aes_key).length = 32 := by
    rw [hexPairs_length]
    omega
  obtain ⟨c, hec, _⟩ := aes_ctr_roundtrip_aux blockE hkeylen hnb16 data
  have hclen : c.length = data.length := by
    have : aes_ctr_encrypt blockE (hexPairs st.aes_key) _ data = some c := hec
    rw [aes_ctr_encrypt] at this
    split at this
    · cases this
      simp [List.length_zipWith, ctrKeystream_length]
    · cases this
  refine ⟨c, ?_, hclen, ?_, ?_, ?_, ?_, ?_, ?_⟩
  · unfold mqttSendAudio
    rw [if_neg hguard]
    simp only [mask32_eq_mod, hkey, hfh, hec, Bool.false_eq_true, if_false]
  · rw [hexPairs_length, List.length_take, hblen]
    rfl
  · rw [beBytes_length]
  · rw [hexPairs_length, List.length_take, List.length_drop, hblen]
    rfl
  · rw [beBytes_length]
  · show beBytes 1 (data.length / 256) ++ [data.length % 256] = _
    show beBytes 0 (data.length / 256 / 256) ++ [data.length / 256 % 256]
      ++ [data.length % 256] = _
    have h1 : data.length / 256 % 256 = data.length / 256 := by omega
    rw [h1]
    rfl
  · rw [mqttSendAudio_state blockE false st data hsock hsrv hport]

/-- Witness for C2 at a concrete ready state and payload. -/
theorem send_audio_nonce_and_packet_format_witness :
    ∃ c, (mqttSendAudio (fun _ _ => 0) false testMqttReady [9, 9, 9]).1.sent =
        some ((hexPairs (testMqttReady.aes_nonce.take 4) ++ beBytes 2 3 ++
               hexPairs ((testMqttReady.aes_nonce.drop 8).take 16) ++
               beBytes 4 1) ++ c) ∧ c.length = 3 := by
  have h := send_audio_nonce_and_packet_format (fun _ _ => 0) testMqttReady [9, 9, 9]
    (by rfl) (by decide) (by decide) (by rfl) (by decide) (by decide) (by decide)
    (by decide)
  obtain ⟨c, hs, hl, -, -, -, -, -, -⟩ := h
  exact ⟨c, hs, hl⟩

/-- C4: every `send_audio` call that passes the channel guard (and so
reaches the packet-construction path) advances the local sequence counter
by exactly 1 modulo `2 ^ 32` — whatever the outcome of hex decoding,
encryption or the socket send, and without raising — so from `2 ^ 32 - 1`
it wraps to `0`; no other session operation (`_handle_server_hello`,
`disconnect`) ever touches the counter, so it is never reset within a
session. -/
theorem send_audio_sequence_counter (blockE : List Nat → Nat → Nat)
    (sendtoFails : Bool) (st : MqttState) (data : List Nat)
    (hsock : st.udp_socket = true) (hsrv : st.udp_server ≠ "") (hport : st.udp_port ≠ 0) :
    (mqttSendAudio blockE sendtoFails st data).2.local_sequence
        = (st.local_sequence + 1) % 2 ^ 32 ∧
    (st.local_sequence = 2 ^ 32 - 1 →
      (mqttSendAudio blockE sendtoFails st data).2.local_sequence = 0) ∧
    (∀ d, (mqttHandleServerHello st d).1.local_sequence = st.local_sequence) ∧
    (∀ b, (mqttDisconnect b st).2.local_sequence = st.local_sequence) := by
  have hmain : (mqttSendAudio blockE sendtoFails st data).2.local_sequence
      = (st.local_sequence + 1) % 2 ^ 32 := by
    rw [mqttSendAudio_state blockE sendtoFails st data hsock hsrv hport]
  refine ⟨hmain, ?_, ?_, ?_⟩
  · intro hw
    rw [hmain, hw]
    norm_num
  · intro d
    cases htr : d.transport with
    | none => simp [mqttHandleServerHello, htr]
    | some t =>
      by_cases ht : t = "mqtt"
      · subst ht
        by_cases hh : d.udp_host = "" ∨ d.udp_port = 0 ∨ d.aes_key = [] ∨ d.aes_nonce = []
        · simp [mqttHandleServerHello, htr, hh]
        · simp [mqttHandleServerHello, htr, hh]
      · simp [mqttHandleServerHello, htr, ht]
  · intro b
    unfold mqttDisconnect
    by_cases hc : st.mqtt_client
    · simp [hc]
    · simp [hc]

/-- Witness for C4: from the ready test state one send advances the counter
from 0 to 1. -/
theorem send_audio_sequence_counter_witness :
    (mqttSendAudio (fun _ _ => 0) false testMqttReady [1]).2.local_sequence = 1 := by
  have h := send_audio_sequence_counter (fun _ _ => 0) false testMqttReady [1]
    (by rfl) (by decide) (by decide)
  rw [h.1]
  decide

/-- C5: a server hello carrying the hybrid transport tag but an empty or
missing datagram host, port, cipher key or base nonce is dropped: the
handshake-completion event is not signalled, the datagram socket and
receive thread are not started, and the audio-channel-opened listener is
not invoked — so the 10-second `connect` wait can only end in timeout and
no session is established. -/
theorem server_hello_missing_udp_fields_fail (st : MqttState) (d : HelloData)
    (ht : d.transport = some "mqtt")
    (hmiss : d.udp_host = "" ∨ d.udp_port = 0 ∨ d.aes_key = [] ∨ d.aes_nonce = []) :
    (mqttHandleServerHello st d).1.server_hello_set = st.server_hello_set ∧
    (mqttHandleServerHello st d).1.udp_socket = st.udp_socket ∧
    (mqttHandleServerHello st d).1.udp_running = st.udp_running ∧
    (mqttHandleServerHello st d).2 = false := by
  unfold mqttHandleServerHello
  rw [ht]
  simp only [if_pos rfl, if_pos hmiss]
  exact ⟨rfl, rfl, rfl, rfl⟩

/-- Witness for C5: hybrid hello with an empty key is dropped on the fresh
state. -/
theorem server_hello_missing_udp_fields_fail_witness :
    (mqttHandleServerHello mqttInitialState
      ⟨some "mqtt", "sess", "host", 1234, [], List.replicate 32 1⟩).1.server_hello_set
        = false ∧
    (mqttHandleServerHello mqttInitialState
      ⟨some "mqtt", "sess", "host", 1234, [], List.replicate 32 1⟩).2 = false := by
  have h := server_hello_missing_udp_fields_fail mqttInitialState
    ⟨some "mqtt", "sess", "host", 1234, [], List.replicate 32 1⟩ rfl
    (by right; right; left; rfl)
  exact ⟨h.1, h.2.2.2⟩

/-- C6: a server hello whose transport tag is absent or differs from the
requesting transport's tag is ignored by both transports: the state —
including `session_id` — is unchanged, no listener fires, and the handler
returns normally (no exception). -/
theorem server_hello_transport_mismatch_ignored (stm : MqttState) (stw : WsState)
    (d e : HelloData)
    (hm : ∀ t, d.transport = some t → t ≠ "mqtt")
    (hw : ∀ t, e.transport = some t → t ≠ "websocket") :
    mqttHandleServerHello stm d = (stm, false) ∧
    wsHandleServerHello stw e = (stw, false) := by
  constructor
  · cases htr : d.transport with
    | none => simp [mqttHandleServerHello, htr]
    | some t => simp [mqttHandleServerHello, htr, hm t htr]
  · cases htr : e.transport with
    | none => simp [wsHandleServerHello, htr]
    | some t => simp [wsHandleServerHello, htr, hw t htr]

/-- Witness for C6: a websocket-tagged hello at the hybrid transport and an
mqtt-tagged hello at the single-channel transport are both ignored. -/
theorem server_hello_transport_mismatch_ignored_witness :
    mqttHandleServerHello mqttInitialState
      ⟨some "websocket", "s", "h", 1, [1], [1]⟩ = (mqttInitialState, false) ∧
    wsHandleServerHello wsInitialState
      ⟨some "mqtt", "s", "h", 1, [1], [1]⟩ = (wsInitialState, false) :=
  server_hello_transport_mismatch_ignored mqttInitialState wsInitialState _ _
    (by intro t h; cases h; decide) (by intro t h; cases h; decide)

/-- A connected single-channel state used by concrete witnesses. -/
def testWsReady : WsState :=
  ⟨true, true, true, "s"⟩

/-- C3 (code bug): the spec's receive contract — split a leading 16-byte
nonce, decrypt the rest with it, deliver the plaintext — is broken by the
code: `_udp_receive_thread` slices `data[:32]` as the nonce although the
send path of the same module prepends 16 bytes and `modes.CTR` only accepts
a 16-byte counter block.  Consequently decryption of every sufficiently
long datagram raises (caught and logged) and the incoming-audio listener is
never invoked: over all states, listeners and datagrams the worker delivers
nothing, and on a concrete 33-byte datagram with a valid 16-byte session
key the decrypt attempt fails. -/
theorem udp_receive_nonce_size_bug :
    (∀ (blockE : List Nat → Nat → Nat) (hasListener : Bool) (st : MqttState)
       (data : List Nat), (udpReceiveStep blockE hasListener st data).delivered = none) ∧
    udpReceiveStep (fun _ _ => 0) true testMqttReady (List.replicate 33 7) =
      ⟨none, true, true⟩ := by
  constructor
  · intro blockE hasListener st data
    unfold udpReceiveStep
    by_cases hg : data ≠ [] ∧ 32 < data.length
    · rw [if_pos hg]
      rcases fromhex st.aes_key with _ | keyB
      · rfl
      · have hnb : fromhex (bytesToHex (data.take 32)) =
            some (hexPairs (bytesToHex (data.take 32))) :=
          fromhex_eq_some (by rw [bytesToHex_length]; omega) (bytesToHex_lt _)
        rw [hnb]
        have ht32 : (data.take 32).length = 32 := by
          rw [List.length_take]
          exact Nat.min_eq_left (by omega)
        have hlen32 : (hexPairs (bytesToHex (data.take 32))).length = 32 := by
          rw [hexPairs_length, bytesToHex_length, ht32]
        have hdec : aes_ctr_decrypt blockE keyB (hexPairs (bytesToHex (data.take 32)))
            (data.drop 32) = none := by
          rw [aes_ctr_decrypt, if_neg]
          intro hc
          rw [hlen32] at hc
          omega
        simp only [hdec]
    · rw [if_neg hg]
  · decide

/-- C7 (code bug): the spec requires every send failure on an established
channel to surface as a `MessageError` after the error listener runs, and
the docstring of `MqttProtocol.send_audio` states the same; but that method
catches every exception from its send path and merely returns `False` (the
error listener does run).  Both `send_text` implementations and the
WebSocket `send_audio` do raise `MessageError` as specified. -/
theorem send_failure_error_surfacing :
    (∀ (blockE : List Nat → Nat → Nat) (st : MqttState) (data : List Nat),
      (mqttSendAudio blockE true st data).1.raisedMessageErr = false ∧
      (mqttSendAudio blockE true st data).1.retval = false) ∧
    (mqttSendAudio (fun _ _ => 0) true testMqttReady [1, 2, 3]).1 =
      ⟨none, false, false, true⟩ ∧
    mqttSendText true false testMqttReady = ⟨true, none, true, false⟩ ∧
    wsSendAudio true testWsReady = ⟨true, none, true, false⟩ ∧
    wsSendText true testWsReady = ⟨true, none, true, true⟩ := by
  refine ⟨?_, ?_, by decide, by decide, by decide⟩
  · intro blockE st data
    unfold mqttSendAudio
    repeat' split
    all_goals first
    | exact ⟨rfl, rfl⟩
    | simp_all
  · have h1 : (testMqttReady.local_sequence + 1) &&& 0xFFFFFFFF = 1 := by
      rw [mask32_eq_mod]
      decide
    have hkey : fromhex testMqttReady.aes_key = some (hexPairs testMqttReady.aes_key) :=
      fromhex_eq_some (by decide) (by decide)
    have hkeylen : (hexPairs testMqttReady.aes_key).length = 16 ∨
        (hexPairs testMqttReady.aes_key).length = 24 ∨
        (hexPairs testMqttReady.aes_key).length = 32 := by decide
    obtain ⟨hfh, hnb16⟩ := newNonceHex_parts
      (show testMqttReady.aes_nonce.length = 32 by decide)
      (show ∀ d ∈ testMqttReady.aes_nonce, d < 16 by decide)
      (show ([1, 2, 3] : List Nat).length ≤ 65535 by decide)
      (show (1:Nat) < 2 ^ 32 by norm_num)
    obtain ⟨c, hec, -⟩ := aes_ctr_roundtrip_aux (fun _ _ => 0) hkeylen hnb16 [1, 2, 3]
    unfold mqttSendAudio
    rw [if_neg (by decide), h1]
    simp only [hkey, hfh, hec]
    rfl

lemma mqttDisconnect_state (e : Bool) (st : MqttState) :
    (mqttDisconnect e st).2
      = { st with udp_running := false, udp_socket := false, mqtt_client := false } := by
  obtain ⟨mc, us, ur, sv, pp, ak, an, ls, si, sh⟩ := st
  cases mc <;> cases e <;> rfl

lemma mqttDisconnect_ret (e : Bool) (st : MqttState) :
    (mqttDisconnect e st).1 = (!st.mqtt_client || !e) := by
  obtain ⟨mc, us, ur, sv, pp, ak, an, ls, si, sh⟩ := st
  cases mc <;> cases e <;> rfl

lemma wsDisconnect_websocket (f : Bool) (w : WsState) :
    (wsDisconnect f w).2.websocket = false := by
  obtain ⟨ws, cn, hr, si⟩ := w
  cases ws <;> cases f <;> rfl

lemma wsDisconnect_ret (f : Bool) (w : WsState) :
    (wsDisconnect f w).1 = (!w.websocket || !f) := by
  obtain ⟨ws, cn, hr, si⟩ := w
  cases ws <;> cases f <;> rfl

/-- C8: disconnect is idempotent on both transports.  A first call succeeds
whenever the underlying control-connection teardown does not throw (and
unconditionally from the fresh pre-connect state, where nothing is open); a
second call in a row succeeds unconditionally; after disconnect no client,
socket or connection object is retained and `is_audio_channel_opened` is
false. -/
theorem disconnect_idempotent (st : MqttState) (w : WsState) (e1 e2 f1 f2 : Bool) :
    (e1 = false → (mqttDisconnect e1 st).1 = true) ∧
    (mqttDisconnect e2 (mqttDisconnect e1 st).2).1 = true ∧
    (mqttDisconnect e2 (mqttDisconnect e1 st).2).2.mqtt_client = false ∧
    (mqttDisconnect e2 (mqttDisconnect e1 st).2).2.udp_socket = false ∧
    (mqttDisconnect e2 (mqttDisconnect e1 st).2).2.udp_running = false ∧
    mqttIsAudioChannelOpened (mqttDisconnect e1 st).2 = false ∧
    (mqttDisconnect e1 mqttInitialState).1 = true ∧
    (f1 = false → (wsDisconnect f1 w).1 = true) ∧
    (wsDisconnect f2 (wsDisconnect f1 w).2).1 = true ∧
    (wsDisconnect f2 (wsDisconnect f1 w).2).2.websocket = false ∧
    wsIsAudioChannelOpened (wsDisconnect f1 w).2 = false ∧
    (wsDisconnect f1 wsInitialState).1 = true := by
  refine ⟨?_, ?_, ?_, ?_, ?_, ?_, ?_, ?_, ?_, ?_, ?_, ?_⟩
  · intro he
    subst he
    rw [mqttDisconnect_ret]
    simp
  · rw [mqttDisconnect_ret, mqttDisconnect_state]
    simp
  · rw [mqttDisconnect_state]
  · rw [mqttDisconnect_state]
  · rw [mqttDisconnect_state]
  · rw [mqttIsAudioChannelOpened, mqttDisconnect_state]
    simp
  · rw [mqttDisconnect_ret]
    simp [mqttInitialState]
  · intro hf
    subst hf
    rw [wsDisconnect_ret]
    simp
  · rw [wsDisconnect_ret, wsDisconnect_websocket]
    simp
  · rw [wsDisconnect_websocket]
  · rw [wsIsAudioChannelOpened, wsDisconnect_websocket]
    simp
  · rw [wsDisconnect_ret]
    simp [wsInitialState]

/-- Witness for C8: double disconnect from the connected test states with a
clean teardown environment returns success both times. -/
theorem disconnect_idempotent_witness :
    (mqttDisconnect false testMqttReady).1 = true ∧
    (mqttDisconnect false (mqttDisconnect false testMqttReady).2).1 = true ∧
    (wsDisconnect false testWsReady).1 = true ∧
    (wsDisconnect false (wsDisconnect false testWsReady).2).1 = true := by
  obtain ⟨h1, h2, -, -, -, -, -, h8, h9, -⟩ :=
    disconnect_idempotent testMqttReady testWsReady false false false false
  exact ⟨h1 rfl, h2, h8 rfl, h9⟩

/-- C9: every inbound datagram at or below the 32-byte minimum size floor is
dropped by the receive worker: no decryption is attempted, the
incoming-audio listener is not invoked, and nothing is raised — the loop
just continues. -/
theorem short_datagram_dropped (blockE : List Nat → Nat → Nat) (hasListener : Bool)
    (st : MqttState) (data : List Nat) (h : data.length ≤ 32) :
    udpReceiveStep blockE hasListener st data = ⟨none, false, false⟩ := by
  have hg : ¬(data ≠ [] ∧ 32 < data.length) := by
    intro hc
    exact absurd hc.2 (by omega)
  unfold udpReceiveStep
  rw [if_neg hg]

/-- Witness for C9: a 10-byte datagram is dropped. -/
theorem short_datagram_dropped_witness :
    udpReceiveStep (fun _ _ => 0) true testMqttReady (List.replicate 10 0) =
      ⟨none, false, false⟩ :=
  short_datagram_dropped (fun _ _ => 0) true testMqttReady (List.replicate 10 0)
    (by decide)

lemma hexString_length_ge {n : Nat} (h : 65535 < n) : 5 ≤ (hexString n).length := by
  have hne : n ≠ 0 := by omega
  have h1 : n < 16 ^ (Nat.digits 16 n).length := Nat.lt_base_pow_length_digits (by norm_num)
  have h2 : (hexString n).length = (Nat.digits 16 n).length := by
    unfold hexString
    rw [if_neg hne, List.length_reverse]
  by_contra hlt
  push_neg at hlt
  have h3 : (16:Nat) ^ (Nat.digits 16 n).length ≤ 16 ^ 4 := by
    apply Nat.pow_le_pow_right (by norm_num)
    omega
  norm_num at h3
  omega

lemma newNonceHex_total {base : List Nat} (hb : base.length = 32) {seq : Nat}
    (hseq : seq < 2 ^ 32) (len : Nat) :
    (newNonceHex base len seq).length = 28 + (formatHex 4 len).length := by
  have hseq16 : seq < 16 ^ 8 := by
    norm_num at hseq ⊢
    omega
  unfold newNonceHex
  simp only [List.length_append, List.length_take, List.length_drop, hb]
  rw [formatHex_length_eq (hexString_length_le (by norm_num) hseq16)]
  have e1 : (4:Nat) ⊓ 32 = 4 := rfl
  have e2 : (16:Nat) ⊓ (32 - 8) = 16 := rfl
  omega

/-- C10 (implicit): the outbound nonce built by `send_audio` decodes to
exactly 16 bytes if and only if the payload length is at most 65535.  The
length field uses a minimum — not fixed — hex width of 4 digits, so for a
longer payload it exceeds 4 hex digits and any value the hex decoder still
accepts is longer than 16 bytes (for an odd digit count `bytes.fromhex`
raises instead), while the masked sequence field is always exactly 8 hex
digits, i.e. 4 bytes. -/
theorem nonce_length_hex_width (base : List Nat) (len s : Nat)
    (hb : base.length = 32) (hd : ∀ d ∈ base, d < 16) :
    ((∃ nb, fromhex (newNonceHex base len (s &&& 0xFFFFFFFF)) = some nb ∧
        nb.length = 16) ↔ len ≤ 65535) ∧
    (65535 < len → 4 < (formatHex 4 len).length) ∧
    (65535 < len → ∀ nb,
        fromhex (newNonceHex base len (s &&& 0xFFFFFFFF)) = some nb → 16 < nb.length) ∧
    (formatHex 8 (s &&& 0xFFFFFFFF)).length = 8 ∧
    (hexPairs (formatHex 8 (s &&& 0xFFFFFFFF))).length = 4 := by
  have hm : s &&& 0xFFFFFFFF < 2 ^ 32 := by
    rw [mask32_eq_mod]
    exact Nat.mod_lt _ (by norm_num)
  have hm16 : s &&& 0xFFFFFFFF < 16 ^ 8 := by
    norm_num at hm ⊢
    omega
  have hf8 : (formatHex 8 (s &&& 0xFFFFFFFF)).length = 8 :=
    formatHex_length_eq (hexString_length_le (by norm_num) hm16)
  have htotal := newNonceHex_total hb hm len
  refine ⟨?_, ?_, ?_, hf8, ?_⟩
  · constructor
    · rintro ⟨nb, hsome, h16⟩
      by_contra hgt
      push_neg at hgt
      obtain ⟨heven, hnb⟩ := fromhex_some_inv hsome
      have h5 := hexString_length_ge hgt
      have hL : nb.length = (newNonceHex base len (s &&& 0xFFFFFFFF)).length / 2 := by
        rw [hnb, hexPairs_length]
      rw [htotal] at hL heven
      rw [formatHex_length] at hL heven
      omega
    · intro hle
      obtain ⟨hfh, h16⟩ := newNonceHex_parts hb hd hle hm
      exact ⟨_, hfh, h16⟩
  · intro hgt
    rw [formatHex_length]
    have := hexString_length_ge hgt
    omega
  · intro hgt nb hsome
    obtain ⟨heven, hnb⟩ := fromhex_some_inv hsome
    have h5 := hexString_length_ge hgt
    have hL : nb.length = (newNonceHex base len (s &&& 0xFFFFFFFF)).length / 2 := by
      rw [hnb, hexPairs_length]
    rw [htotal] at hL heven
    rw [formatHex_length] at hL heven
    omega
  · rw [hexPairs_length, hf8]

/-- Witness for C10 at the test base nonce, a 3-byte payload and sequence
value 0. -/
theorem nonce_length_hex_width_witness :
    ((∃ nb, fromhex (newNonceHex (List.replicate 32 2) 3 ((0:Nat) &&& 0xFFFFFFFF))
        = some nb ∧ nb.length = 16) ↔ (3:Nat) ≤ 65535) ∧
    (formatHex 8 ((0:Nat) &&& 0xFFFFFFFF)).length = 8 := by
  have h := nonce_length_hex_width (List.replicate 32 2) 3 0 (by decide) (by decide)
  exact ⟨h.1, h.2.2.2.1⟩
